import Mathlib

/-!
Shallow embedding of `ckanext/datahub/commands.py` (the column-report
renderer of `DatahubCommand`), together with theorems settling the claims
about it.  Output is modelled as a list of printed lines; Python 2 integer
semantics (floor division, truthiness) are made explicit.
-/

namespace Datahub

/-- Python `' ' * n` for a natural count. -/
def spaces (n : Nat) : String :=
  String.mk (List.replicate n ' ')

/-- Python `c * w` where `w` may be a negative int (yields `''`). -/
def repChar (c : Char) (w : Int) : String :=
  String.mk (List.replicate w.toNat c)

/-- Python 2 `string.ljust(s, width)`: pad on the right with spaces to
`width`; a longer string is returned unchanged. -/
def ljust (s : String) (width : Nat) : String :=
  s ++ spaces (width - s.length)

/-- Python 2 `string.center(s, width)` (CPython `str.center`): for
`width <= len(s)` return `s`; otherwise split the margin with
`left = marg / 2 + (marg & width & 1)`. -/
def pyCenter (s : String) (width : Int) : String :=
  if width ≤ (s.length : Int) then s
  else
    let w : Nat := width.toNat
    let marg : Nat := w - s.length
    let left : Nat := marg / 2 + (marg &&& w &&& 1)
    spaces left ++ s ++ spaces (marg - left)

/-- Python `''.join(row)` (line 226). -/
def strConcat (l : List String) : String :=
  l.foldr (fun a b => a ++ b) ""

/-- Python `max` over a list of naturals (the source always passes a
non-empty list, for which this fold is Python's `max`). -/
def pyMax (l : List Nat) : Nat :=
  l.foldr max 0

/-- Line 173-175: `max([9] + [len(s) for ss in stringss for s in ss]) + 1`,
computed once over every group being rendered together. -/
def columnWidthOf (stringss : List (List String)) : Nat :=
  pyMax (9 :: (stringss.flatten.map String.length)) + 1

/-- Line 215: `num_cols = max(1, window_width / column_width)` with
Python 2 floor division on ints.  The result is at least 1, so it is
returned as a natural. -/
def numColsOf (windowWidth : Int) (columnWidth : Nat) : Nat :=
  (max 1 (Int.fdiv windowWidth (columnWidth : Int))).toNat

/-- Line 216: `num_rows = int(math.ceil(float(len(ss)) / num_cols))`,
i.e. the ceiling of `len / numCols` (exact for the integer inputs the
program passes). -/
def numRowsOf (len numCols : Nat) : Nat :=
  (len + numCols - 1) / numCols

/-- Structural core of the slicing loop at line 218.  The fuel only bounds
the number of slices taken; starting it at `xs.length` never exhausts it
when `0 < n`, since each slice consumes at least one element
(`chunksOfAux_congr` below shows the result is fuel-independent). -/
def chunksOfAux (n : Nat) : Nat → List String → List (List String)
  | _, [] => []
  | 0, _ => []
  | fuel + 1, xs => xs.take n :: chunksOfAux n fuel (xs.drop n)

/-- Line 218: `[ss[i:i + num_rows] for i in range(0, len(ss), num_rows)]`:
successive chunks of length `n` (the final chunk may be shorter). -/
def chunksOf (n : Nat) (xs : List String) : List (List String) :=
  if n = 0 then [] else chunksOfAux n xs.length xs

/-- The column partition the source builds at line 218. -/
def columnsOf (windowWidth : Int) (columnWidth : Nat) (ss : List String) :
    List (List String) :=
  chunksOf (numRowsOf ss.length (numColsOf windowWidth columnWidth)) ss

/-- Length of the longest column. -/
def maxColLen (cols : List (List String)) : Nat :=
  pyMax (cols.map List.length)

/-- Line 219: `izip_longest(*columns, fillvalue='')` — transpose the
columns into rows, substituting `''` where a column is exhausted. -/
def zipLongest (cols : List (List String)) : List (List String) :=
  (List.range (maxColLen cols)).map (fun i => cols.map (fun col => col.getD i ""))

/-- Lines 209-227: `_print_in_columns(window_width, column_width, ss)`,
returned as the list of printed lines (empty when `ss` is empty, thanks to
the early return at line 212-213). -/
def printInColumns (windowWidth : Int) (columnWidth : Nat)
    (ss : List String) : List String :=
  if ss.length = 0 then []
  else
    (zipLongest (columnsOf windowWidth columnWidth ss)).map
      (fun row => strConcat (row.map (fun cell => ljust cell columnWidth)))

/-- Lines 177-185: the boxed branch of `_print_items` — per group a full
width divider, the centered title, another divider, the column block, and
the blank line of the trailing `print`. -/
def printItemsBoxed (windowWidth : Int) (titles : List String)
    (stringss : List (List String)) : List String :=
  ((titles.zip stringss).map (fun p =>
    [repChar '-' windowWidth, pyCenter p.1 windowWidth, repChar '-' windowWidth]
      ++ printInColumns windowWidth (columnWidthOf stringss) p.2 ++ [""])).flatten

/-- Lines 190-192: the flat branch of `_print_items` — one
`title<TAB>member` line per member, in the order given. -/
def printItemsFlat (titles : List String) (stringss : List (List String)) :
    List String :=
  ((titles.zip stringss).map (fun p =>
    p.2.map (fun s => p.1 ++ "\t" ++ s))).flatten

/-- Python truthiness of `window_width` at line 169: `None` and `0` are
falsy, every other int truthy. -/
def widthTruthy : Option Int → Bool
  | none => false
  | some w => w != 0

/-- Line 168-169 mode selection: boxed exactly when `window_width` is
truthy and stdout is a tty. -/
def boxedMode (width : Option Int) (isatty : Bool) : Bool :=
  widthTruthy width && isatty

/-- Lines 161-192: `_print_items`, with the terminal width and the
`os.isatty` result as explicit inputs, returning the printed lines. -/
def printItems (width : Option Int) (isatty : Bool) (titles : List String)
    (stringss : List (List String)) : List String :=
  if boxedMode width isatty then printItemsBoxed (width.getD 0) titles stringss
  else printItemsFlat titles stringss

/-- Outcome of the `fcntl.ioctl` + `struct.unpack` call at lines 200-204:
either a `(height, width)` pair, or any raised exception. -/
inductive IoctlResult where
  | ok (height width : Int)
  | err (msg : String)

/-- Lines 194-207: `_try_to_get_terminal_width` — the bare `except`
turns every failure into `None`. -/
def tryToGetTerminalWidth : IoctlResult → Option Int
  | .ok _ w => some w
  | .err _ => none

/-- A payment plan as the renderer's caller sees it: a `name` and the
`name`s of its `users`. -/
structure Plan where
  name : String
  users : List String

/-- Python 2 `sorted` on strings (lexicographic byte/codepoint order). -/
def sortStrings (l : List String) : List String :=
  l.mergeSort (fun a b => decide (a ≤ b))

/-- Lines 123-127 of `list_paying_users`: project plans to titles and
*sorted* member lists, then `_print_items`. -/
def listPayingUsersRender (width : Option Int) (isatty : Bool)
    (plans : List Plan) : List String :=
  printItems width isatty (plans.map Plan.name)
    (plans.map (fun p => sortStrings p.users))

/-- The column width the SPEC's words prescribe:
`max(10, max(len(m) for every member m)) + 1`. -/
def specColumnWidth (stringss : List (List String)) : Nat :=
  max 10 (pyMax (stringss.flatten.map String.length)) + 1

/-! ### Helper lemmas -/

theorem spaces_length (n : Nat) : (spaces n).length = n := by
  simp [spaces, String.length]

theorem ljust_length (s : String) (w : Nat) (h : s.length ≤ w) :
    (ljust s w).length = w := by
  simp [ljust, String.length_append, spaces_length]
  omega

theorem strConcat_nil : strConcat [] = "" := rfl

theorem strConcat_cons (a : String) (t : List String) :
    strConcat (a :: t) = a ++ strConcat t := rfl

theorem strConcat_length (l : List String) :
    (strConcat l).length = (l.map String.length).sum := by
  induction l with
  | nil => rfl
  | cons a t ih => simp [strConcat_cons, String.length_append, ih]

theorem le_pyMax_of_mem {a : Nat} {l : List Nat} (h : a ∈ l) : a ≤ pyMax l := by
  induction l with
  | nil => cases h
  | cons b t ih =>
    rcases List.mem_cons.mp h with rfl | h
    · exact le_max_left _ _
    · exact le_trans (ih h) (le_max_right _ _)

theorem chunksOfAux_congr (n : Nat) (hn : 0 < n) :
    ∀ (f g : Nat) (xs : List String), xs.length ≤ f → xs.length ≤ g →
      chunksOfAux n f xs = chunksOfAux n g xs := by
  intro f
  induction f with
  | zero =>
    intro g xs hf _
    have hx : xs = [] := List.length_eq_zero.mp (by omega)
    subst hx
    cases g <;> rfl
  | succ f ih =>
    intro g xs hf hg
    cases xs with
    | nil => cases g <;> rfl
    | cons a t =>
      cases g with
      | zero => simp at hg
      | succ g =>
        simp only [chunksOfAux]
        congr 1
        apply ih
        · simp only [List.length_drop, List.length_cons] at *
          omega
        · simp only [List.length_drop, List.length_cons] at *
          omega

theorem chunksOf_eq (n : Nat) (hn : 0 < n) (xs : List String) :
    chunksOf n xs =
      if xs = [] then [] else xs.take n :: chunksOf n (xs.drop n) := by
  unfold chunksOf
  rw [if_neg (by omega)]
  cases xs with
  | nil => rfl
  | cons a t =>
    rw [if_neg (by simp), if_neg (by omega)]
    simp only [List.length_cons, chunksOfAux]
    congr 1
    apply chunksOfAux_congr n hn
    · simp only [List.length_drop, List.length_cons]
      omega
    · exact le_refl _

theorem chunksOf_flatten (n : Nat) (hn : 0 < n) (xs : List String) :
    (chunksOf n xs).flatten = xs := by
  generalize hk : xs.length = k
  induction k using Nat.strong_induction_on generalizing xs with
  | _ k ih =>
    rw [chunksOf_eq n hn]
    split
    · rename_i h
      simp [h]
    · rename_i h
      simp only [List.flatten_cons]
      have hlt : (xs.drop n).length < k := by
        have hpos : 0 < xs.length := List.length_pos.mpr h
        simp only [List.length_drop]
        omega
      rw [ih _ hlt _ rfl, List.take_append_drop]

theorem chunksOf_length_le (n : Nat) (hn : 0 < n) :
    ∀ (k : Nat) (xs : List String), xs.length ≤ n * k →
      (chunksOf n xs).length ≤ k := by
  intro k
  induction k with
  | zero =>
    intro xs hlen
    have hx : xs = [] := List.length_eq_zero.mp (by omega)
    rw [chunksOf_eq n hn]
    simp [hx]
  | succ k ih =>
    intro xs hlen
    rw [chunksOf_eq n hn]
    split
    · simp
    · rename_i h
      simp only [List.length_cons]
      have : (xs.drop n).length ≤ n * k := by
        simp only [List.length_drop]
        have h1 : n * (k + 1) = n * k + n := Nat.mul_succ n k
        omega
      exact Nat.succ_le_succ (ih _ this)

theorem le_mul_numRowsOf (len nc : Nat) (hnc : 0 < nc) :
    len ≤ nc * numRowsOf len nc := by
  have h : len ≤ nc • (len ⌈/⌉ nc) := le_smul_ceilDiv hnc
  rw [smul_eq_mul, Nat.ceilDiv_eq_add_pred_div] at h
  exact h

theorem mem_of_mem_chunksOf {n : Nat} (hn : 0 < n) {xs : List String}
    {c : List String} {s : String} (hc : c ∈ chunksOf n xs) (hs : s ∈ c) :
    s ∈ xs := by
  have : s ∈ (chunksOf n xs).flatten := List.mem_flatten.mpr ⟨c, hc, hs⟩
  rwa [chunksOf_flatten n hn] at this

theorem length_le_maxColLen {cols : List (List String)} {col : List String}
    (h : col ∈ cols) : col.length ≤ maxColLen cols :=
  le_pyMax_of_mem (List.mem_map_of_mem List.length h)

theorem zipLongest_getD (cols : List (List String)) (r c : Nat) :
    ((zipLongest cols).getD r []).getD c "" = (cols.getD c []).getD r "" := by
  unfold zipLongest
  simp only [List.getD_eq_getElem?_getD, List.getElem?_map]
  by_cases hr : r < maxColLen cols
  · rw [List.getElem?_range hr]
    simp only [Option.map_some', Option.getD_some, List.getElem?_map]
    cases hcol : cols[c]? with
    | none => simp
    | some col => simp
  · rw [List.getElem?_eq_none
      (show (List.range (maxColLen cols)).length ≤ r by
        simp only [List.length_range]; omega)]
    simp only [Option.map_none', Option.getD_none]
    cases hcol : cols[c]? with
    | none => simp
    | some col =>
      have hlen : col.length ≤ maxColLen cols :=
        length_le_maxColLen (List.getElem?_mem hcol)
      simp only [Option.getD_some]
      rw [List.getElem?_eq_none (show col.length ≤ r by omega)]
      simp

theorem zipLongest_row_length {cols : List (List String)} {row : List String}
    (h : row ∈ zipLongest cols) : row.length = cols.length := by
  simp only [zipLongest, List.mem_map] at h
  obtain ⟨i, _, rfl⟩ := h
  simp

theorem mem_zipLongest_cell {cols : List (List String)} {row : List String}
    (h : row ∈ zipLongest cols) {cell : String} (hc : cell ∈ row) :
    cell = "" ∨ ∃ col ∈ cols, cell ∈ col := by
  simp only [zipLongest, List.mem_map] at h
  obtain ⟨i, _, rfl⟩ := h
  simp only [List.mem_map] at hc
  obtain ⟨col, hcol, rfl⟩ := hc
  rw [List.getD_eq_getElem?_getD]
  cases hget : col[i]? with
  | none => left; rfl
  | some x =>
    right
    exact ⟨col, hcol, by simpa using List.getElem?_mem hget⟩

theorem sortStrings_perm (l : List String) : (sortStrings l).Perm l :=
  List.mergeSort_perm l _

theorem sortStrings_sorted (l : List String) :
    List.Pairwise (fun a b : String => a ≤ b) (sortStrings l) := by
  have h := @List.sorted_mergeSort String (fun a b : String => decide (a ≤ b))
    (fun a b c hab hbc => by
      simp only [decide_eq_true_eq] at *
      exact le_trans hab hbc)
    (fun a b => by
      simp only [Bool.or_eq_true, decide_eq_true_eq]
      exact le_total a b)
    l
  exact h.imp (fun hab => by simpa using hab)

theorem strConcat_ljust_length (cw : Nat) (l : List String)
    (h : ∀ s ∈ l, s.length ≤ cw) :
    (strConcat (l.map (fun s => ljust s cw))).length = l.length * cw := by
  induction l with
  | nil => simp [strConcat_nil]
  | cons a t ih =>
    simp only [List.map_cons, strConcat_cons, String.length_append,
      List.length_cons]
    rw [ljust_length a cw (h a (List.mem_cons_self a t)),
      ih (fun s hs => h s (List.mem_cons_of_mem a hs))]
    ring

theorem ten_le_columnWidthOf (stringss : List (List String)) :
    10 ≤ columnWidthOf stringss := by
  have hx : columnWidthOf stringss
      = max 9 (pyMax (stringss.flatten.map String.length)) + 1 := rfl
  have h := le_max_left 9 (pyMax (stringss.flatten.map String.length))
  omega

theorem length_lt_columnWidthOf {stringss : List (List String)}
    {ss : List String} {s : String} (hss : ss ∈ stringss) (hs : s ∈ ss) :
    s.length < columnWidthOf stringss := by
  have hmem : s ∈ stringss.flatten := List.mem_flatten.mpr ⟨ss, hss, hs⟩
  have h1 : s.length ≤ pyMax (stringss.flatten.map String.length) :=
    le_pyMax_of_mem (List.mem_map_of_mem String.length hmem)
  have h2 : pyMax (stringss.flatten.map String.length)
      ≤ max 9 (pyMax (stringss.flatten.map String.length)) := le_max_right _ _
  have hx : columnWidthOf stringss
      = max 9 (pyMax (stringss.flatten.map String.length)) + 1 := rfl
  omega

theorem numColsOf_pos (w : Int) (cw : Nat) : 0 < numColsOf w cw := by
  unfold numColsOf
  have h := le_max_left 1 (Int.fdiv w (cw : Int))
  omega

theorem numRowsOf_pos (len nc : Nat) (hlen : 0 < len) (hnc : 0 < nc) :
    0 < numRowsOf len nc := by
  show 1 ≤ numRowsOf len nc
  unfold numRowsOf
  rw [Nat.le_div_iff_mul_le hnc]
  omega

theorem sortStrings_eq {l target : List String} (hperm : l.Perm target)
    (hsorted : List.Pairwise (fun a b : String => a ≤ b) target) :
    sortStrings l = target :=
  List.eq_of_perm_of_sorted ((sortStrings_perm l).trans hperm)
    (sortStrings_sorted l) hsorted

theorem sortStrings_bob_al_zoe :
    sortStrings ["bob", "al", "zoe"] = ["al", "bob", "zoe"] :=
  sortStrings_eq (by decide)
    (by
      simp only [List.pairwise_cons, List.mem_cons, List.not_mem_nil, or_false,
        forall_eq_or_imp, forall_eq, false_implies, forall_const,
        String.le_iff_toList_le, List.Pairwise.nil, and_true, true_and]
      decide)

/-! ### Claims -/

/-- C1 counterexample: for the single member `"a"` (longest member has at
most 10 characters) the code computes `columnWidth = 10`, not the spec's
`max(10, maxLen) + 1 = 11`, so `columnWidth ≥ 11` fails. -/
theorem C1_counterexample :
    columnWidthOf [["a"]] = 10 ∧ specColumnWidth [["a"]] = 11 ∧
    columnWidthOf [["a"]] ≠ specColumnWidth [["a"]] ∧
    ¬ 11 ≤ columnWidthOf [["a"]] := by decide

/-- C1 (amended): the column width is computed once, globally over every
member of every group, as `columnWidth = max(9, maximum member length) + 1`;
consequently it is always at least 10, and at most 11 when the longest
member has at most 10 characters. -/
theorem C1_thm (stringss : List (List String)) :
    columnWidthOf stringss
        = max 9 (pyMax (stringss.flatten.map String.length)) + 1 ∧
    10 ≤ columnWidthOf stringss ∧
    (pyMax (stringss.flatten.map String.length) ≤ 10 →
      columnWidthOf stringss ≤ 11) := by
  have hx : columnWidthOf stringss
      = max 9 (pyMax (stringss.flatten.map String.length)) + 1 := rfl
  refine ⟨hx, ten_le_columnWidthOf stringss, fun h => ?_⟩
  rw [hx]
  have h2 := max_le (show (9 : Nat) ≤ 10 by norm_num) h
  omega

/-- C1 witness: the amended claim evaluated at the group set `[["a"]]`. -/
theorem C1_witness :
    columnWidthOf [["a"]]
        = max 9 (pyMax (([["a"]] : List (List String)).flatten.map String.length)) + 1 ∧
    10 ≤ columnWidthOf [["a"]] ∧
    columnWidthOf [["a"]] ≤ 11 :=
  ⟨(C1_thm [["a"]]).1, (C1_thm [["a"]]).2.1,
    (C1_thm [["a"]]).2.2 (by decide)⟩

/-- C2 counterexample: for the single group `["al","bob","zoe"]` at width
40 the code derives `columnWidth = 10` and `numColumns = 4`, not the
claimed 11 and 3. -/
theorem C2_counterexample :
    columnWidthOf [["al", "bob", "zoe"]] = 10 ∧
    numColsOf 40 (columnWidthOf [["al", "bob", "zoe"]]) = 4 ∧
    ¬(columnWidthOf [["al", "bob", "zoe"]] = 11 ∧
      numColsOf 40 (columnWidthOf [["al", "bob", "zoe"]]) = 3) := by decide

/-- C2 (amended): for the group "gold" with members bob, al, zoe rendered
in boxed mode at width 40 the derived layout is `columnWidth = 10`,
`numColumns = 4`, `numRows = 1`, and the single emitted row contains the
sorted members al, bob, zoe each left-justified to 10 characters. -/
theorem C2_thm :
    listPayingUsersRender (some 40) true [⟨"gold", ["bob", "al", "zoe"]⟩] =
      ["----------------------------------------",
       "                  gold                  ",
       "----------------------------------------",
       "al        bob       zoe       ",
       ""] ∧
    columnWidthOf [["al", "bob", "zoe"]] = 10 ∧
    numColsOf 40 10 = 4 ∧ numRowsOf 3 4 = 1 := by
  refine ⟨?_, by decide, by decide, by decide⟩
  show printItems (some 40) true ["gold"] [sortStrings ["bob", "al", "zoe"]] = _
  rw [sortStrings_bob_al_zoe]
  decide

/-- C3 counterexample: end to end, `list_paying_users` sorts the members
before printing, so the flat output for gold with members bob, al, zoe is
the three lines in sorted order al, bob, zoe — not the claimed original
order bob, al, zoe. -/
theorem C3_counterexample :
    listPayingUsersRender none false [⟨"gold", ["bob", "al", "zoe"]⟩] =
      ["gold\tal", "gold\tbob", "gold\tzoe"] ∧
    listPayingUsersRender none false [⟨"gold", ["bob", "al", "zoe"]⟩] ≠
      ["gold\tbob", "gold\tal", "gold\tzoe"] := by
  constructor
  · show printItems none false ["gold"] [sortStrings ["bob", "al", "zoe"]] = _
    rw [sortStrings_bob_al_zoe]
    decide
  · show printItems none false ["gold"] [sortStrings ["bob", "al", "zoe"]] ≠ _
    rw [sortStrings_bob_al_zoe]
    decide

/-- C3 (amended): `_print_items` in flat mode preserves the order of the
member lists it is handed, but `list_paying_users` sorts each plan's
member names before rendering; end to end the flat lines for a plan are
one `title<TAB>member` line per member, in lexicographically sorted
member order — a permutation of one line per original member. -/
theorem C3_thm (isatty : Bool) (title : String) (members : List String) :
    listPayingUsersRender none isatty [⟨title, members⟩] =
      (sortStrings members).map (fun m => title ++ "\t" ++ m) ∧
    (listPayingUsersRender none isatty [⟨title, members⟩]).Perm
      (members.map (fun m => title ++ "\t" ++ m)) := by
  have h1 : listPayingUsersRender none isatty [⟨title, members⟩] =
      (sortStrings members).map (fun m => title ++ "\t" ++ m) := by
    show printItems none isatty [title] [sortStrings members] = _
    simp [printItems, boxedMode, widthTruthy, printItemsFlat]
  refine ⟨h1, ?_⟩
  rw [h1]
  exact (sortStrings_perm members).map _

/-- C8: `_try_to_get_terminal_width` returns normally on every outcome of
the underlying ioctl/unpack — the width on success, and `None` on any
failure. -/
theorem C8_thm (h w : Int) (msg : String) :
    tryToGetTerminalWidth (.ok h w) = some w ∧
    tryToGetTerminalWidth (.err msg) = none :=
  ⟨rfl, rfl⟩

/-- C10: for a non-empty member list the derived `num_cols` and `num_rows`
are both positive, so the ceiling division and the slicing step are
well-defined; the empty list is excluded by the early return at line
212-213. -/
theorem C10_thm (w : Int) (cw : Nat) (ss : List String) (h : ss ≠ []) :
    0 < numColsOf w cw ∧
    0 < numRowsOf ss.length (numColsOf w cw) ∧
    printInColumns w cw [] = [] := by
  refine ⟨numColsOf_pos w cw, ?_, rfl⟩
  exact numRowsOf_pos _ _ (List.length_pos.mpr h) (numColsOf_pos w cw)

/-- C10 witness: the positivity facts evaluated at width 40, column width
10 and the one-member list. -/
theorem C10_witness :
    0 < numColsOf 40 10 ∧
    0 < numRowsOf (["a"] : List String).length (numColsOf 40 10) ∧
    printInColumns 40 10 [] = [] :=
  C10_thm 40 10 ["a"] (by decide)

/-- C4 counterexample: with five one-character members at width 40 the
code derives `columnWidth = 10`, `numColumns = 4`, but the first emitted
(non-final) row of the block (line index 3 of the group output) has
rendered length 30, not `numColumns * columnWidth = 40`. -/
theorem C4_counterexample :
    ((printItems (some 40) true ["g"]
        [["a", "b", "c", "d", "e"]]).getD 3 "").length = 30 ∧
    (printItems (some 40) true ["g"] [["a", "b", "c", "d", "e"]]).length = 6 ∧
    columnWidthOf [["a", "b", "c", "d", "e"]] = 10 ∧
    numColsOf 40 (columnWidthOf [["a", "b", "c", "d", "e"]]) = 4 ∧
    (30 : Nat) ≠ 4 * 10 := by decide

/-- C4 (amended): in boxed mode every emitted row of a group's block has
rendered length exactly (number of column chunks) * columnWidth, where the
number of chunks is at most `numColumns = max(1, floor(width/columnWidth))`
— so every row is at most `numColumns * columnWidth` wide, with equality
only when the chunk partition fills all the columns; `columnWidth` is at
least 10. -/
theorem C4_thm (w : Int) (stringss : List (List String))
    (ss : List String) (line : String) (hss : ss ∈ stringss)
    (hline : line ∈ printInColumns w (columnWidthOf stringss) ss) :
    10 ≤ columnWidthOf stringss ∧
    line.length
      = (columnsOf w (columnWidthOf stringss) ss).length
          * columnWidthOf stringss ∧
    line.length
      ≤ numColsOf w (columnWidthOf stringss) * columnWidthOf stringss := by
  have hss0 : ¬ ss.length = 0 := by
    intro h0
    rw [printInColumns, if_pos h0] at hline
    exact absurd hline (List.not_mem_nil line)
  have hnc : 0 < numColsOf w (columnWidthOf stringss) := numColsOf_pos _ _
  have hnr : 0 < numRowsOf ss.length (numColsOf w (columnWidthOf stringss)) :=
    numRowsOf_pos _ _ (by omega) hnc
  rw [printInColumns, if_neg hss0] at hline
  simp only [List.mem_map] at hline
  obtain ⟨row, hrow, rfl⟩ := hline
  have hcells : ∀ cell ∈ row, cell.length ≤ columnWidthOf stringss := by
    intro cell hc
    rcases mem_zipLongest_cell hrow hc with h | ⟨col, hcol, hcc⟩
    · rw [h]
      exact Nat.zero_le _
    · exact le_of_lt
        (length_lt_columnWidthOf hss (mem_of_mem_chunksOf hnr hcol hcc))
  have hlen := strConcat_ljust_length (columnWidthOf stringss) row hcells
  have hrl : row.length = (columnsOf w (columnWidthOf stringss) ss).length :=
    zipLongest_row_length hrow
  refine ⟨ten_le_columnWidthOf stringss, by rw [hlen, hrl], ?_⟩
  rw [hlen, hrl]
  apply Nat.mul_le_mul_right
  apply chunksOf_length_le _ hnr
  calc ss.length
      ≤ numColsOf w (columnWidthOf stringss)
          * numRowsOf ss.length (numColsOf w (columnWidthOf stringss)) :=
        le_mul_numRowsOf _ _ hnc
    _ = numRowsOf ss.length (numColsOf w (columnWidthOf stringss))
          * numColsOf w (columnWidthOf stringss) := Nat.mul_comm _ _

/-- C4 witness: the amended claim evaluated at width 40 on the
five-one-character-member group, at its first emitted row. -/
theorem C4_witness :
    10 ≤ columnWidthOf [["a", "b", "c", "d", "e"]] ∧
    ("a" ++ spaces 9 ++ "c" ++ spaces 9 ++ "e" ++ spaces 9).length
      = (columnsOf 40 (columnWidthOf [["a", "b", "c", "d", "e"]])
            ["a", "b", "c", "d", "e"]).length
          * columnWidthOf [["a", "b", "c", "d", "e"]] ∧
    ("a" ++ spaces 9 ++ "c" ++ spaces 9 ++ "e" ++ spaces 9).length
      ≤ numColsOf 40 (columnWidthOf [["a", "b", "c", "d", "e"]])
          * columnWidthOf [["a", "b", "c", "d", "e"]] :=
  C4_thm 40 [["a", "b", "c", "d", "e"]] ["a", "b", "c", "d", "e"]
    ("a" ++ spaces 9 ++ "c" ++ spaces 9 ++ "e" ++ spaces 9)
    (by decide) (by decide)

/-- C5: in boxed mode the column partition of a group's sorted members
flattens back, column by column, to exactly the sorted members — a
permutation of the group's members (each appearing exactly once), in
lexicographically sorted order — and every grid cell read from the
`izip_longest` rows at row `r`, column `c` is the column's `r`-th entry,
with the empty string as the padding value beyond a column's length. -/
theorem C5_thm (w : Int) (cw : Nat) (members : List String) :
    (columnsOf w cw (sortStrings members)).flatten = sortStrings members ∧
    (sortStrings members).Perm members ∧
    List.Pairwise (fun a b : String => a ≤ b) (sortStrings members) ∧
    (∀ r c : Nat,
      ((zipLongest (columnsOf w cw (sortStrings members))).getD r []).getD c ""
        = ((columnsOf w cw (sortStrings members)).getD c []).getD r "") := by
  refine ⟨?_, sortStrings_perm members, sortStrings_sorted members,
    fun r c => zipLongest_getD _ r c⟩
  unfold columnsOf
  by_cases h0 : (sortStrings members).length = 0
  · have hnil : sortStrings members = [] := List.length_eq_zero.mp h0
    rw [hnil]
    cases hn : numRowsOf ([] : List String).length (numColsOf w cw) <;>
      simp [chunksOf, chunksOfAux]
  · exact chunksOf_flatten _
      (numRowsOf_pos _ _ (by omega) (numColsOf_pos w cw)) _

/-- C6: boxed column mode is selected exactly when stdout is a tty and a
(positive) width was detected; when not a tty, or the width is unknown,
the flat tab-separated rendering is produced. -/
theorem C6_thm (width : Option Int) (isatty : Bool) (titles : List String)
    (stringss : List (List String))
    (hpos : ∀ w, width = some w → 0 < w) :
    (boxedMode width isatty = true ↔ (isatty = true ∧ width.isSome = true)) ∧
    (isatty = false ∨ width = none →
      printItems width isatty titles stringss
        = printItemsFlat titles stringss) := by
  constructor
  · cases width with
    | none => simp [boxedMode, widthTruthy]
    | some w =>
      have hw : w ≠ 0 := by
        have := hpos w rfl
        omega
      simp [boxedMode, widthTruthy, hw]
  · intro h
    have hb : boxedMode width isatty = false := by
      rcases h with h | h
      · simp [boxedMode, h]
      · simp [boxedMode, h, widthTruthy]
    simp [printItems, hb]

/-- C6 witness: the mode-selection facts evaluated at no width, not a tty,
on a concrete group list. -/
theorem C6_witness :
    (boxedMode none false = true
      ↔ (false = true ∧ (none : Option Int).isSome = true)) ∧
    printItems none false ["gold"] [["al"]]
      = printItemsFlat ["gold"] [["al"]] :=
  ⟨(C6_thm none false ["gold"] [["al"]]
      (fun _ hw => Option.noConfusion hw)).1,
   (C6_thm none false ["gold"] [["al"]]
      (fun _ hw => Option.noConfusion hw)).2 (Or.inl rfl)⟩

/-- C7: a group with zero members contributes no lines in flat mode, while
boxed mode still emits its banner (divider, centered title, divider)
followed by an empty row block (and the trailing blank line); empty input
renders to empty output in both modes, with no failure. -/
theorem C7_thm (w : Int) (width : Option Int) (isatty : Bool)
    (t : String) (ts : List String) (ss : List (List String)) :
    printItemsFlat (t :: ts) ([] :: ss) = printItemsFlat ts ss ∧
    printItemsBoxed w (t :: ts) ([] :: ss) =
      [repChar '-' w, pyCenter t w, repChar '-' w, ""]
        ++ printItemsBoxed w ts ss ∧
    printItems width isatty [] [] = [] := by
  refine ⟨?_, ?_, ?_⟩
  · simp [printItemsFlat]
  · have hcw : columnWidthOf ([] :: ss) = columnWidthOf ss := rfl
    simp [printItemsBoxed, hcw, printInColumns]
  · unfold printItems
    split <;> simp [printItemsBoxed, printItemsFlat]

/-- C9 counterexample: at an explicit negative width the renderer does not
fail fast — it renders a (degenerate) boxed report; at width 0 it silently
falls through to flat mode.  Here width -5 produces non-empty output. -/
theorem C9_counterexample :
    printItems (some (-5)) true ["gold"] [["a"]] =
      ["", "gold", "", "a" ++ spaces 9, ""] ∧
    printItems (some (-5)) true ["gold"] [["a"]] ≠ [] := by decide

/-- C9 (amended): the renderer performs no width validation: an explicit
zero width is falsy and falls through to flat-mode output exactly as when
the width is unknown, and a negative width proceeds through the boxed path
with `numColumns` clamped to 1, rendering output rather than failing. -/
theorem C9_thm (titles : List String) (stringss : List (List String))
    (isatty : Bool) :
    printItems (some 0) isatty titles stringss
      = printItemsFlat titles stringss ∧
    (∀ w : Int, w < 0 → ∀ cw : Nat, numColsOf w cw = 1) := by
  constructor
  · simp [printItems, boxedMode, widthTruthy]
  · intro w hw cw
    unfold numColsOf
    have hle : Int.fdiv w (cw : Int) ≤ 0 := by
      rcases Nat.eq_zero_or_pos cw with h0 | h0
      · rw [h0]
        simp
      · exact le_of_lt (Int.fdiv_neg' hw (by exact_mod_cast h0))
    rw [max_eq_left (by omega)]
    rfl

/-- C9 witness: the amended claim evaluated at widths 0 and -5. -/
theorem C9_witness :
    printItems (some 0) true ["gold"] [["a"]]
      = printItemsFlat ["gold"] [["a"]] ∧
    numColsOf (-5) 10 = 1 :=
  ⟨(C9_thm ["gold"] [["a"]] true).1,
   (C9_thm ["gold"] [["a"]] true).2 (-5) (by decide) 10⟩

end Datahub
